import Mathlib

/-!
Shallow embedding of the pr-reviewer-service core (Go) in Lean 4.

The embedding follows the source files:
  internal/service/pr_service.go, internal/service/team_service.go,
  the user service, internal/storage/pr_storage.go, the user storage,
  internal/storage/tx_manager.go and internal/storage/execer.go.

Conventions:
  * Go strings are Lean `String`; `strings.TrimSpace` is modelled by
    `trimSpace` below (ASCII whitespace subset of `unicode.IsSpace`).
  * SQL tables are lists of rows; `order by random()` is modelled by
    passing the randomly-ordered table (`shuffle`) as an explicit argument.
  * Go errors are constructors of small inductive types; `fmt.Errorf`
    wrapping only decorates messages and is dropped (only `errors.Is`
    classes are observable in the service logic).
  * Each mutating repository method appends a `RepoCall` record, modelling
    the call-counting fake repositories of the test-suite.
-/

namespace PRReviewer

/-- ASCII whitespace, the fragment of Go `unicode.IsSpace` relevant to ids,
titles and team names. -/
def isSpaceChar (c : Char) : Bool :=
  c = ' ' || c = '\t' || c = '\n' || c = '\r' || c = '\x0b' || c = '\x0c'

/-- Model of Go `strings.TrimSpace`: drop whitespace from both ends. -/
def trimSpace (s : String) : String :=
  ⟨((s.data.dropWhile isSpaceChar).reverse.dropWhile isSpaceChar).reverse⟩

theorem dropWhile_dropWhile (p : Char → Bool) (l : List Char) :
    (l.dropWhile p).dropWhile p = l.dropWhile p := by
  induction l with
  | nil => rfl
  | cons a t ih =>
    by_cases h : p a
    · simp [List.dropWhile_cons, h, ih]
    · simp [List.dropWhile_cons, h]

theorem dropWhile_eq_self_of_leading (p : Char → Bool) {l₁ l₂ : List Char}
    (hpre : l₁ <+: l₂) (h : l₂.dropWhile p = l₂) : l₁.dropWhile p = l₁ := by
  cases l₁ with
  | nil => rfl
  | cons a t =>
    obtain ⟨r, hr⟩ := hpre
    subst hr
    by_cases hp : p a
    · exfalso
      have h' : List.dropWhile p (a :: (t ++ r)) = a :: (t ++ r) := by simpa using h
      rw [List.dropWhile_cons, if_pos hp] at h'
      have hlen := congrArg List.length h'
      have hle : (List.dropWhile p (t ++ r)).length ≤ (t ++ r).length :=
        ((List.dropWhile_suffix p).sublist).length_le
      simp at hlen hle
      omega
    · simp [List.dropWhile_cons, hp]

theorem trimSpace_idem (s : String) : trimSpace (trimSpace s) = trimSpace s := by
  have h1 : (s.data.dropWhile isSpaceChar).dropWhile isSpaceChar
      = s.data.dropWhile isSpaceChar := dropWhile_dropWhile _ _
  set l1 := s.data.dropWhile isSpaceChar with hl1
  set l2 := (l1.reverse.dropWhile isSpaceChar).reverse with hl2
  have hpre : l2 <+: l1 := by
    obtain ⟨t, ht⟩ := List.dropWhile_suffix isSpaceChar (l := l1.reverse)
    refine ⟨t.reverse, ?_⟩
    rw [hl2]
    have hrev := congrArg List.reverse ht
    simpa using hrev
  have h2 : l2.dropWhile isSpaceChar = l2 := dropWhile_eq_self_of_leading _ hpre h1
  have h3 : l2.reverse.dropWhile isSpaceChar = l2.reverse := by
    rw [hl2, List.reverse_reverse]
    exact dropWhile_dropWhile _ _
  apply String.ext
  show (((trimSpace s).data.dropWhile isSpaceChar).reverse.dropWhile isSpaceChar).reverse
      = (trimSpace s).data
  have hd : (trimSpace s).data = l2 := rfl
  rw [hd, h2, h3, List.reverse_reverse]

/-! ## Data model (internal/models, internal/data migrations) -/

/-- A row of the `users` table: id (primary key), username, team affiliation,
active flag.  Also serves as Go `models.UserWithTeam`. -/
structure User where
  id : String
  username : String
  teamName : String
  isActive : Bool
deriving Repr, DecidableEq

/-- A member of a team creation request, Go `models.User` (no team field). -/
structure Member where
  id : String
  username : String
  isActive : Bool
deriving Repr, DecidableEq

/-- A row of the `pull_requests` table (id, title, author_id, status). -/
structure StoredPR where
  id : String
  title : String
  authorID : String
  status : String
deriving Repr, DecidableEq

/-- Go `models.PullRequest` as returned by the service layer. -/
structure PullRequest where
  id : String
  title : String
  authorID : String
  status : String
  reviewers : List String
  needMoreReviewers : Bool
deriving Repr, DecidableEq

/-- Go `models.PullRequestShort`. -/
structure PullRequestShort where
  id : String
  title : String
  authorID : String
  status : String
deriving Repr, DecidableEq

def statusOpen : String := "OPEN"
def statusMerged : String := "MERGED"

/-- `reviewersPerPR = 2` (internal/service/pr_service.go). -/
def reviewersPerPR : Nat := 2

/-- The relational store: `teams`, `users`, `pull_requests` and
`pull_requests_reviewers` ((pull_request_id, user_id) pairs). -/
structure DB where
  teams : List String
  users : List User
  prs : List StoredPR
  reviewerRows : List (String × String)
deriving Repr, DecidableEq

/-- One mutating repository call, as a call-counting fake would record it. -/
inductive RepoCall where
  | createTeamRow (name : String)
  | upsertUser (m : Member) (team : String)
  | insertPR (id : String)
  | addReviewer (prID userID : String)
  | updateStatus (prID status : String)
  | deleteReviewer (prID userID : String)
  | insertReviewer (prID userID : String)
  | setActive (userID : String) (isActive : Bool)
  | deactivateTeam (team : String)
deriving Repr, DecidableEq

/-- Service-visible state: the store plus the log of mutating repository
calls issued so far (the log survives transaction rollback, the store does
not). -/
structure St where
  db : DB
  calls : List RepoCall
deriving Repr, DecidableEq

/-- Sentinel errors of the storage layer (internal/storage). -/
inductive StorageError where
  | userNotFound
  | noCandidate
  | prExists
  | prNotFound
  | reviewerNotAssigned
  | teamExists
  | internal
deriving Repr, DecidableEq

/-- Sentinel errors of the service layer (internal/service). -/
inductive ServiceError where
  | validation
  | authorNotFound
  | teamNotFound
  | prAlreadyExists
  | prNotFound
  | prMerged
  | reviewerNotAssigned
  | noReplacement
  | userNotFound
  | teamExists
  | internal
deriving Repr, DecidableEq

/-! ## Storage layer -/

/-- First-occurrence duplicate removal with a `seen` accumulator, the direct
translation of the Go `seen map + append` loops in the storage and service
layers. -/
def dedupFirstAux (seen : List String) : List String → List String
  | [] => []
  | x :: xs => if x ∈ seen then dedupFirstAux seen xs else x :: dedupFirstAux (x :: seen) xs

def dedupFirst (l : List String) : List String := dedupFirstAux [] l

theorem mem_dedupFirstAux {x : String} :
    ∀ {seen l : List String}, x ∈ dedupFirstAux seen l ↔ x ∈ l ∧ x ∉ seen := by
  intro seen l
  induction l generalizing seen with
  | nil => simp [dedupFirstAux]
  | cons a t ih =>
    by_cases ha : a ∈ seen
    · rw [dedupFirstAux, if_pos ha, ih]
      constructor
      · rintro ⟨hx, hs⟩
        exact ⟨List.mem_cons_of_mem _ hx, hs⟩
      · rintro ⟨hx, hs⟩
        rcases List.mem_cons.mp hx with rfl | hx
        · exact absurd ha hs
        · exact ⟨hx, hs⟩
    · rw [dedupFirstAux, if_neg ha]
      constructor
      · intro hx
        rcases List.mem_cons.mp hx with rfl | hx
        · exact ⟨List.mem_cons_self _ _, ha⟩
        · obtain ⟨h1, h2⟩ := ih.mp hx
          have hns : ¬(x = a ∨ x ∈ seen) := fun hc => h2 (List.mem_cons.mpr hc)
          push_neg at hns
          exact ⟨List.mem_cons_of_mem _ h1, hns.2⟩
      · rintro ⟨hx, hs⟩
        rcases List.mem_cons.mp hx with rfl | hx
        · exact List.mem_cons_self _ _
        · by_cases hxa : x = a
          · subst hxa; exact List.mem_cons_self _ _
          · exact List.mem_cons_of_mem _ (ih.mpr ⟨hx, by simp [hxa, hs]⟩)

theorem mem_dedupFirst {x : String} {l : List String} :
    x ∈ dedupFirst l ↔ x ∈ l := by
  rw [dedupFirst, mem_dedupFirstAux]
  simp

/-- `UserStorage.GetUserWithTeam`: `select id, username, team_name, is_active
from users where id = $1`; no row yields `ErrUserNotFound`. -/
def getUserWithTeam (db : DB) (userID : String) : Except StorageError User :=
  match db.users.find? (fun u => u.id = userID) with
  | some u => .ok u
  | none => .error .userNotFound

/-- `UserStorage.GetActiveTeammates`: returns `[]` for `limit <= 0`, else
`select ... where team_name = $1 and is_active and id <> $2 order by random()
limit $3`.  `shuffle` is the randomly-ordered `users` table. -/
def getActiveTeammates (shuffle : List User) (teamName excludeUserID : String)
    (limit : Nat) : List User :=
  if limit = 0 then []
  else (shuffle.filter
    (fun u => u.teamName = teamName && u.isActive && u.id ≠ excludeUserID)).take limit

/-- `UserStorage.GetRandomActiveTeammate`: trims each exclude id, skips blanks
and duplicates, then `select ... where team_name = $1 and is_active and id not
in (excludes) order by random() limit 1`; no row yields `ErrNoCandidate`. -/
def getRandomActiveTeammate (shuffle : List User) (teamName : String)
    (excludeIDs : List String) : Except StorageError User :=
  let uniq := dedupFirst ((excludeIDs.map trimSpace).filter (fun id => id ≠ ""))
  match (shuffle.filter
      (fun u => u.teamName = teamName && u.isActive && !(uniq.contains u.id))).head? with
  | some u => .ok u
  | none => .error .noCandidate

/-- `UserStorage.UpsertUser`: `insert into users ... on conflict (id) do
update set username, team_name, is_active`. -/
def upsertUser (db : DB) (m : Member) (teamName : String) : DB × List RepoCall :=
  let db' :=
    if db.users.any (fun u => u.id = m.id) then
      { db with users := db.users.map (fun u =>
          if u.id = m.id then
            { id := u.id, username := m.username, teamName := teamName, isActive := m.isActive }
          else u) }
    else
      { db with users := db.users ++
          [{ id := m.id, username := m.username, teamName := teamName, isActive := m.isActive }] }
  (db', [.upsertUser m teamName])

/-- `UserStorage.SetUserActive`: `update users set is_active = $1 where id =
$2 returning ...`; zero rows yields `ErrUserNotFound`. -/
def storageSetUserActive (db : DB) (userID : String) (isActive : Bool) :
    Except StorageError (User × DB) × List RepoCall :=
  match db.users.find? (fun u => u.id = userID) with
  | none => (.error .userNotFound, [.setActive userID isActive])
  | some u =>
    ( .ok ({ u with isActive := isActive },
        { db with users := db.users.map (fun v =>
            if v.id = userID then { v with isActive := isActive } else v) }),
      [.setActive userID isActive] )

/-- `UserStorage.GetUsersByTeam`: `select id, username, is_active from users
where team_name = $1`. -/
def getUsersByTeam (db : DB) (teamName : String) : List Member :=
  (db.users.filter (fun u => u.teamName = teamName)).map
    (fun u => { id := u.id, username := u.username, isActive := u.isActive })

/-- Modelled from the spec: `TeamStorage.CreateTeam` is absent from the
source tree (only its tests remain); per those tests it runs `insert into
teams (name) values ($1) on conflict (name) do nothing` and reports
`ErrTeamExists` when no row was inserted. -/
def storageCreateTeam (db : DB) (name : String) :
    Except StorageError DB × List RepoCall :=
  if db.teams.contains name then (.error .teamExists, [.createTeamRow name])
  else (.ok { db with teams := db.teams ++ [name] }, [.createTeamRow name])

/-- Modelled from the spec: `TeamStorage.ExistsTeam` is absent from the
source tree; per the spec it reports whether the team row exists. -/
def existsTeam (db : DB) (name : String) : Bool :=
  db.teams.contains name

/-- Modelled from the spec: `TeamStorage.DeactivateTeamUsers` is absent from
the source tree; per the spec it flips every active member of the team to
inactive in one statement and returns the affected count. -/
def storageDeactivateTeamUsers (db : DB) (teamName : String) :
    (Nat × DB) × List RepoCall :=
  let affected := (db.users.filter (fun u => u.teamName = teamName && u.isActive)).length
  ( (affected,
     { db with users := db.users.map (fun u =>
         if u.teamName = teamName && u.isActive then { u with isActive := false } else u) }),
    [.deactivateTeam teamName] )

/-- `PRStorage.CreatePR`: inserts the `pull_requests` row and echoes the
inserted columns; a unique violation on the id yields `ErrPRExists`.  The
insert stores only (id, title, author_id, status): `need_more_reviewers` has
no column in the migration and is not persisted. -/
def storageCreatePR (db : DB) (pr : StoredPR) :
    Except StorageError (StoredPR × DB) × List RepoCall :=
  if db.prs.any (fun p => p.id = pr.id) then (.error .prExists, [.insertPR pr.id])
  else (.ok (pr, { db with prs := db.prs ++ [pr] }), [.insertPR pr.id])

/-- `PRStorage.AddReviewers`: returns immediately on an empty list, else
inserts one `pull_requests_reviewers` row per reviewer; a primary-key
violation surfaces as a generic error. -/
def addReviewers (db : DB) (prID : String) (ids : List String) :
    Except StorageError DB × List RepoCall :=
  match ids with
  | [] => (.ok db, [])
  | id :: rest =>
    if db.reviewerRows.any (fun r => r.1 = prID && r.2 = id) then
      (.error .internal, [.addReviewer prID id])
    else
      let db' := { db with reviewerRows := db.reviewerRows ++ [(prID, id)] }
      match addReviewers db' prID rest with
      | (res, cs) => (res, .addReviewer prID id :: cs)

/-- Computable lexicographic comparison of character lists (byte order),
used to model SQL `order by <text column>`; structurally recursive so that
concrete runs evaluate inside proofs. -/
def strLEb : List Char → List Char → Bool
  | [], _ => true
  | _ :: _, [] => false
  | a :: as, b :: bs => if a = b then strLEb as bs else decide (a.toNat < b.toNat)

/-- Lexicographic order on `String` via `strLEb`. -/
def strLE (s t : String) : Prop := strLEb s.data t.data = true

instance : DecidableRel strLE := fun s t =>
  inferInstanceAs (Decidable (strLEb s.data t.data = true))

/-- String sorting used to model SQL `order by <text column>`. -/
def sortStrings (l : List String) : List String :=
  l.insertionSort strLE

/-- `PRStorage.GetPR`: fetches the row (`ErrPRNotFound` if absent), then
`select user_id from pull_requests_reviewers where pull_request_id = $1 order
by user_id`.  Only (id, title, author_id, status) columns exist, so the
returned `need_more_reviewers` is the zero value `false`. -/
def getPR (db : DB) (prID : String) : Except StorageError PullRequest :=
  match db.prs.find? (fun p => p.id = prID) with
  | none => .error .prNotFound
  | some p =>
    .ok { id := p.id, title := p.title, authorID := p.authorID, status := p.status,
          reviewers := sortStrings ((db.reviewerRows.filter (fun r => r.1 = prID)).map (·.2)),
          needMoreReviewers := false }

/-- Modelled from the spec: `PRStorage.UpdatePRStatus` is absent from the
source tree (only its tests and its caller remain); per those tests it runs
`update pull_requests set status_id = ... where id = $1` and reports
`ErrPRNotFound` when no row was affected. -/
def updatePRStatus (db : DB) (prID status : String) :
    Except StorageError DB × List RepoCall :=
  if db.prs.any (fun p => p.id = prID) then
    (.ok { db with prs := db.prs.map (fun p =>
        if p.id = prID then { p with status := status } else p) },
     [.updateStatus prID status])
  else (.error .prNotFound, [.updateStatus prID status])

/-- `PRStorage.ReplaceReviewer`: delete the old assignment row (zero rows
affected yields `ErrReviewerNotAssigned`), then insert the replacement row
(a primary-key violation surfaces as a generic error). -/
def replaceReviewer (db : DB) (prID oldReviewerID newReviewerID : String) :
    Except StorageError DB × List RepoCall :=
  let remaining := db.reviewerRows.filter (fun r => !(r.1 = prID && r.2 = oldReviewerID))
  if remaining.length = db.reviewerRows.length then
    (.error .reviewerNotAssigned, [.deleteReviewer prID oldReviewerID])
  else
    let db1 := { db with reviewerRows := remaining }
    if db1.reviewerRows.any (fun r => r.1 = prID && r.2 = newReviewerID) then
      (.error .internal,
       [.deleteReviewer prID oldReviewerID, .insertReviewer prID newReviewerID])
    else
      (.ok { db1 with reviewerRows := db1.reviewerRows ++ [(prID, newReviewerID)] },
       [.deleteReviewer prID oldReviewerID, .insertReviewer prID newReviewerID])

/-- The `order by pr.id` relation on short PR rows. -/
def shortLE (a b : PullRequestShort) : Prop := strLE a.id b.id

instance : DecidableRel shortLE := fun a b =>
  inferInstanceAs (Decidable (strLE a.id b.id))

/-- `PRStorage.GetReviewerPRs`: PRs the user reviews, `order by pr.id`. -/
def getReviewerPRs (db : DB) (userID : String) : List PullRequestShort :=
  ((db.prs.filter (fun p =>
      db.reviewerRows.any (fun r => r.1 = p.id && r.2 = userID))).map
    (fun p => { id := p.id, title := p.title, authorID := p.authorID,
                status := p.status : PullRequestShort })).insertionSort shortLE

/-! ## Service layer

Each service method returns the Go `(result, error)` pair as an `Except`,
together with the state after the call.  A `tx.Run` unit of work commits the
working store on success and rolls it back (restoring the entry store, but
keeping the call log) on error, mirroring `TxManagerSQL.Run`. -/

/-- Go `models.PRCreateRequest`. -/
structure PRCreateRequest where
  id : String
  title : String
  authorID : String
deriving Repr, DecidableEq

/-- Go `models.PRMergeRequest`. -/
structure PRMergeRequest where
  id : String
deriving Repr, DecidableEq

/-- Go `models.PRReassignRequest`. -/
structure PRReassignRequest where
  id : String
  oldReviewerID : String
deriving Repr, DecidableEq

/-- Go `models.PRReassignResponse`. -/
structure PRReassignResponse where
  pr : PullRequest
  replacedBy : String
deriving Repr, DecidableEq

/-- Go `models.UserReviewsResponse`. -/
structure UserReviewsResponse where
  userID : String
  pullRequests : List PullRequestShort
deriving Repr, DecidableEq

/-- Go `models.Team` as a creation request: members may be null. -/
structure TeamIn where
  name : String
  members : List (Option Member)
deriving Repr, DecidableEq

/-- The normalized team returned by `CreateTeam`. -/
structure TeamOut where
  name : String
  members : List Member
deriving Repr, DecidableEq

/-- Go `models.TeamDeactivateResponse`. -/
structure TeamDeactivateResponse where
  teamName : String
  deactivatedCount : Nat
deriving Repr, DecidableEq

/-- The member-normalization loop of `TeamService.CreateTeam`: skip null
entries, trim id and username, fail validation on a blank, skip ids already
seen (first occurrence wins). -/
def normalizeMembers (ms : List (Option Member)) (seen : List String) :
    Except ServiceError (List Member) :=
  match ms with
  | [] => .ok []
  | none :: rest => normalizeMembers rest seen
  | some m :: rest =>
    let mid := trimSpace m.id
    let uname := trimSpace m.username
    if mid = "" ∨ uname = "" then .error .validation
    else if mid ∈ seen then normalizeMembers rest seen
    else
      match normalizeMembers rest (mid :: seen) with
      | .ok tail => .ok ({ id := mid, username := uname, isActive := m.isActive } :: tail)
      | .error e => .error e

/-- The upsert loop inside `TeamService.CreateTeam`'s transaction. -/
def upsertAll (db : DB) (ms : List Member) (teamName : String) : DB × List RepoCall :=
  match ms with
  | [] => (db, [])
  | m :: rest =>
    let (db1, cs1) := upsertUser db m teamName
    let (db2, cs2) := upsertAll db1 rest teamName
    (db2, cs1 ++ cs2)

/-- `TeamService.CreateTeam`: trim and validate the name, normalize the
members, then in one transaction insert the team row (`ErrTeamExists` maps
through) and upsert each unique member.  Returns the normalized team. -/
def createTeam (team : Option TeamIn) (st : St) :
    Except ServiceError TeamOut × St :=
  match team with
  | none => (.error .validation, st)
  | some team =>
    let name := trimSpace team.name
    if name = "" then (.error .validation, st)
    else
      match normalizeMembers team.members [] with
      | .error e => (.error e, st)
      | .ok uniq =>
        match storageCreateTeam st.db name with
        | (.error .teamExists, cs) =>
          (.error .teamExists, { db := st.db, calls := st.calls ++ cs })
        | (.error _, cs) => (.error .internal, { db := st.db, calls := st.calls ++ cs })
        | (.ok db1, cs1) =>
          let (db2, cs2) := upsertAll db1 uniq name
          (.ok { name := name, members := uniq },
           { db := db2, calls := st.calls ++ cs1 ++ cs2 })

/-- `TeamService.GetTeamUsers`: trim and validate the name, check existence
(`ErrTeamNotFound` when absent), then list the team's members. -/
def getTeamUsers (teamName : String) (st : St) :
    Except ServiceError (List Member) × St :=
  let name := trimSpace teamName
  if name = "" then (.error .validation, st)
  else if existsTeam st.db name then (.ok (getUsersByTeam st.db name), st)
  else (.error .teamNotFound, st)

/-- Modelled from the spec: `TeamService.DeactivateTeamUsers` is absent from
the source tree (only its tests and its transport caller remain); per the
spec it validates the trimmed name, fails `TeamNotFound` when the team is
absent, then flips every active member to inactive and returns the count. -/
def deactivateTeamUsers (teamName : String) (st : St) :
    Except ServiceError TeamDeactivateResponse × St :=
  let name := trimSpace teamName
  if name = "" then (.error .validation, st)
  else if existsTeam st.db name then
    match storageDeactivateTeamUsers st.db name with
    | ((count, db1), cs) =>
      (.ok { teamName := name, deactivatedCount := count },
       { db := db1, calls := st.calls ++ cs })
  else (.error .teamNotFound, st)

/-- `UserService.SetUserActive`: trim and validate the id, write the flag via
the repository, mapping `storage.ErrUserNotFound`. -/
def setUserActive (userID : String) (isActive : Bool) (st : St) :
    Except ServiceError User × St :=
  let uid := trimSpace userID
  if uid = "" then (.error .validation, st)
  else
    match storageSetUserActive st.db uid isActive with
    | (.error .userNotFound, cs) =>
      (.error .userNotFound, { db := st.db, calls := st.calls ++ cs })
    | (.error _, cs) => (.error .internal, { db := st.db, calls := st.calls ++ cs })
    | (.ok (u, db1), cs) => (.ok u, { db := db1, calls := st.calls ++ cs })

/-- `PRService.CreatePR`: validate the trimmed fields, then in one
transaction resolve the author (`AuthorNotFound`), require a team
(`TeamNotFound`), select up to 2 random active teammates, compute
`need_more_reviewers`, insert the PR (`PRAlreadyExists` on collision), attach
the reviewers, and return the PR with reviewers and flag set. -/
def createPR (req : Option PRCreateRequest) (shuffle : List User) (st : St) :
    Except ServiceError PullRequest × St :=
  match req with
  | none => (.error .validation, st)
  | some req =>
    let prID := trimSpace req.id
    let title := trimSpace req.title
    let authorID := trimSpace req.authorID
    if prID = "" then (.error .validation, st)
    else if title = "" then (.error .validation, st)
    else if authorID = "" then (.error .validation, st)
    else
      match getUserWithTeam st.db authorID with
      | .error .userNotFound => (.error .authorNotFound, st)
      | .error _ => (.error .internal, st)
      | .ok author =>
        let teamName := trimSpace author.teamName
        if teamName = "" then (.error .teamNotFound, st)
        else
          let teammates := getActiveTeammates shuffle teamName author.id reviewersPerPR
          let reviewers := teammates.map (fun u => u.id)
          let needMore := decide (reviewers.length < reviewersPerPR)
          let pr : StoredPR :=
            { id := prID, title := title, authorID := author.id, status := statusOpen }
          match storageCreatePR st.db pr with
          | (.error .prExists, cs) =>
            (.error .prAlreadyExists, { db := st.db, calls := st.calls ++ cs })
          | (.error _, cs) => (.error .internal, { db := st.db, calls := st.calls ++ cs })
          | (.ok (created, db1), cs1) =>
            match addReviewers db1 created.id reviewers with
            | (.error _, cs2) =>
              (.error .internal, { db := st.db, calls := st.calls ++ cs1 ++ cs2 })
            | (.ok db2, cs2) =>
              (.ok { id := created.id, title := created.title, authorID := created.authorID,
                     status := created.status, reviewers := reviewers,
                     needMoreReviewers := needMore },
               { db := db2, calls := st.calls ++ cs1 ++ cs2 })

/-- `PRService.GetUserReviews`: validate the trimmed id, confirm the user
exists (`UserNotFound`), return the PRs the user reviews. -/
def getUserReviews (userID : String) (st : St) :
    Except ServiceError UserReviewsResponse × St :=
  let uid := trimSpace userID
  if uid = "" then (.error .validation, st)
  else
    match getUserWithTeam st.db uid with
    | .error .userNotFound => (.error .userNotFound, st)
    | .error _ => (.error .internal, st)
    | .ok _ => (.ok { userID := uid, pullRequests := getReviewerPRs st.db uid }, st)

/-- `PRService.MergePR`: validate the trimmed id, fetch the PR
(`PRNotFound`); if already merged return it unchanged without any write,
else update the status and return the PR with status `MERGED`. -/
def mergePR (req : Option PRMergeRequest) (st : St) :
    Except ServiceError PullRequest × St :=
  match req with
  | none => (.error .validation, st)
  | some req =>
    let prID := trimSpace req.id
    if prID = "" then (.error .validation, st)
    else
      match getPR st.db prID with
      | .error .prNotFound => (.error .prNotFound, st)
      | .error _ => (.error .internal, st)
      | .ok pr =>
        if pr.status = statusMerged then (.ok pr, st)
        else
          match updatePRStatus st.db prID statusMerged with
          | (.error _, cs) => (.error .internal, { db := st.db, calls := st.calls ++ cs })
          | (.ok db1, cs) =>
            (.ok { pr with status := statusMerged }, { db := db1, calls := st.calls ++ cs })

/-- The in-place update loop at the end of `ReassignReviewer`: replace the
first occurrence of the old reviewer id, preserving order, then break. -/
def replaceFirst : List String → String → String → List String
  | [], _, _ => []
  | r :: rs, old, new => if r = old then new :: rs else r :: replaceFirst rs old new

/-- `PRService.ReassignReviewer`: validate the trimmed fields, fetch the PR
(`PRNotFound`), reject merged PRs (`PRMerged`) and unassigned old reviewers
(`ReviewerNotAssigned`); resolve the old reviewer's team, pick one random
active teammate outside {old reviewer} ∪ current reviewers
(`NoReplacementCandidate`), atomically replace the assignment, and return
the PR with the old id replaced in place plus the replacement's id. -/
def reassignReviewer (req : Option PRReassignRequest) (shuffle : List User) (st : St) :
    Except ServiceError PRReassignResponse × St :=
  match req with
  | none => (.error .validation, st)
  | some req =>
    let prID := trimSpace req.id
    let oldReviewerID := trimSpace req.oldReviewerID
    if prID = "" then (.error .validation, st)
    else if oldReviewerID = "" then (.error .validation, st)
    else
      match getPR st.db prID with
      | .error .prNotFound => (.error .prNotFound, st)
      | .error _ => (.error .internal, st)
      | .ok pr =>
        if pr.status = statusMerged then (.error .prMerged, st)
        else if ¬ pr.reviewers.contains oldReviewerID then
          (.error .reviewerNotAssigned, st)
        else
          match getUserWithTeam st.db oldReviewerID with
          | .error .userNotFound => (.error .userNotFound, st)
          | .error _ => (.error .internal, st)
          | .ok reviewerUser =>
            let teamName := trimSpace reviewerUser.teamName
            if teamName = "" then (.error .teamNotFound, st)
            else
              let excludeList := dedupFirst (oldReviewerID :: pr.reviewers)
              match getRandomActiveTeammate shuffle teamName excludeList with
              | .error .noCandidate => (.error .noReplacement, st)
              | .error _ => (.error .internal, st)
              | .ok replacement =>
                match replaceReviewer st.db prID oldReviewerID replacement.id with
                | (.error .reviewerNotAssigned, cs) =>
                  (.error .reviewerNotAssigned, { db := st.db, calls := st.calls ++ cs })
                | (.error _, cs) =>
                  (.error .internal, { db := st.db, calls := st.calls ++ cs })
                | (.ok db1, cs) =>
                  (.ok { pr := { pr with
                           reviewers := replaceFirst pr.reviewers oldReviewerID replacement.id },
                         replacedBy := replacement.id },
                   { db := db1, calls := st.calls ++ cs })

/-- `PRStorage.GetAssignmentsStats` aggregation: distinct keys with their row
counts, `order by count desc, key asc`. -/
def statLE (a b : String × Nat) : Prop :=
  b.2 < a.2 ∨ (a.2 = b.2 ∧ strLE a.1 b.1)

instance : DecidableRel statLE := fun a b => by
  unfold statLE
  infer_instance

/-- One `group by key ... order by count desc, key` query over a key list. -/
def aggregateCounts (keys : List String) : List (String × Nat) :=
  (keys.dedup.map (fun k => (k, keys.count k))).insertionSort statLE

/-- `PRStorage.GetAssignmentsStats`: per-user assignment counts and per-PR
reviewer counts over `pull_requests_reviewers`. -/
def getAssignmentsStats (db : DB) : List (String × Nat) × List (String × Nat) :=
  (aggregateCounts (db.reviewerRows.map (·.2)),
   aggregateCounts (db.reviewerRows.map (·.1)))

/-! ## Transaction coordinator (internal/storage/tx_manager.go, execer.go) -/

/-- The call context as the coordinator and the execer helpers see it: the
value stored under `txCtxKey`, if any (`context.WithValue` /
`ctx.Value(txCtxKey{})`).  A transaction handle is identified by a number. -/
structure GoContext where
  txHandle : Option Nat
deriving Repr, DecidableEq

/-- `TxFromCtx`: reads the transaction handle from the context. -/
def txFromCtx (ctx : GoContext) : Option Nat := ctx.txHandle

/-- What a repository call executes against: the ambient transaction or the
default connection. -/
inductive Execer where
  | tx (handle : Nat)
  | dbConn
deriving Repr, DecidableEq

/-- `getExecer`: the transaction from the context when present, else the
default connection. -/
def getExecer (ctx : GoContext) : Execer :=
  match txFromCtx ctx with
  | some t => .tx t
  | none => .dbConn

/-- `getQueryExecer`: same dispatch as `getExecer`. -/
def getQueryExecer (ctx : GoContext) : Execer :=
  match txFromCtx ctx with
  | some t => .tx t
  | none => .dbConn

/-- `ctx = context.WithValue(ctx, txCtxKey{}, tx)` inside `Run`: the context
passed to the unit-of-work function. -/
def runCtx (ctx : GoContext) (txHandle : Nat) : GoContext :=
  { ctx with txHandle := some txHandle }

/-- Outcome of the unit-of-work function `fn`. -/
inductive FnOutcome where
  | ok
  | err
  | panicked
deriving Repr, DecidableEq

/-- How `Run` itself terminates. -/
inductive RunOutcome where
  | success
  | failure
  | panicked
deriving Repr, DecidableEq

/-- Transaction-lifecycle events, in the order `Run` performs them. -/
inductive TxEvent where
  | begin
  | commitOk
  | commitFail
  | rollback
deriving Repr, DecidableEq

/-- `TxManagerSQL.Run`: begin a transaction (propagating a begin failure),
expose it to `fn` through the call context, roll back and re-panic if `fn`
panics, roll back and return the error if `fn` fails, otherwise commit,
surfacing a commit failure as an error.  `beginFails`/`commitFails` model
the fallible driver calls; the event list is the transaction trace. -/
def txRun (ctx : GoContext) (txHandle : Nat) (beginFails : Bool)
    (fn : GoContext → FnOutcome) (commitFails : Bool) :
    RunOutcome × List TxEvent :=
  if beginFails then (.failure, [])
  else
    match fn (runCtx ctx txHandle) with
    | .panicked => (.panicked, [.begin, .rollback])
    | .err => (.failure, [.begin, .rollback])
    | .ok =>
      if commitFails then (.failure, [.begin, .commitFail])
      else (.success, [.begin, .commitOk])

/-! ## Theorems -/

/-- C6: `Run` exposes the transaction it began to nested repository calls
through the call-scoped context: inside the unit of work, `getExecer` and
`getQueryExecer` resolve to that transaction, while outside any unit of work
(no transaction in the context) they resolve to the default connection. -/
theorem run_scopes_tx_to_context (ctx : GoContext) (t : Nat) :
    getExecer (runCtx ctx t) = .tx t ∧ getQueryExecer (runCtx ctx t) = .tx t ∧
    getExecer ⟨none⟩ = .dbConn ∧ getQueryExecer ⟨none⟩ = .dbConn :=
  ⟨rfl, rfl, rfl, rfl⟩

/-- C5: when the unit-of-work function fails or panics, `Run` rolls the
transaction back and never commits it (no commit event appears in the
trace); when it returns nil the transaction is committed, and a commit
failure is surfaced as an error. -/
theorem run_rollback_on_error_commit_on_ok (ctx : GoContext) (t : Nat)
    (fn : GoContext → FnOutcome) (c : Bool) :
    ((fn (runCtx ctx t) = .err ∨ fn (runCtx ctx t) = .panicked) →
      (txRun ctx t false fn c).2 = [.begin, .rollback] ∧
      TxEvent.commitOk ∉ (txRun ctx t false fn c).2 ∧
      TxEvent.commitFail ∉ (txRun ctx t false fn c).2) ∧
    (fn (runCtx ctx t) = .err → (txRun ctx t false fn c).1 = .failure) ∧
    (fn (runCtx ctx t) = .panicked → (txRun ctx t false fn c).1 = .panicked) ∧
    (fn (runCtx ctx t) = .ok →
      txRun ctx t false fn c =
        if c then (.failure, [.begin, .commitFail]) else (.success, [.begin, .commitOk])) := by
  refine ⟨?_, ?_, ?_, ?_⟩
  · rintro (hf | hf) <;> simp [txRun, hf]
  · intro hf; simp [txRun, hf]
  · intro hf; simp [txRun, hf]
  · intro hf; cases c <;> simp [txRun, hf]

/-- Witness for C5 at a concrete failing unit of work. -/
theorem run_rollback_on_error_commit_on_ok_witness :
    (txRun ⟨none⟩ 1 false (fun _ => FnOutcome.err) false).2 = [.begin, .rollback] :=
  ((run_rollback_on_error_commit_on_ok ⟨none⟩ 1 (fun _ => FnOutcome.err) false).1
    (Or.inl rfl)).1

theorem find?_map_update_status (prID s : String) (l : List StoredPR) (p : StoredPR)
    (h : l.find? (fun q => q.id = prID) = some p) :
    (l.map (fun q => if q.id = prID then { q with status := s } else q)).find?
      (fun q => q.id = prID) = some { p with status := s } := by
  induction l with
  | nil => simp at h
  | cons a t ih =>
    by_cases ha : a.id = prID
    · rw [List.find?_cons_of_pos _ (by simpa using ha)] at h
      injection h with h
      subst h
      simp only [List.map_cons, if_pos ha]
      exact List.find?_cons_of_pos _ (by simpa using ha)
    · rw [List.find?_cons_of_neg _ (by simpa using ha)] at h
      simp only [List.map_cons, if_neg ha]
      rw [List.find?_cons_of_neg _ (by simpa using ha)]
      exact ih h

theorem any_of_find?_eq_some {α : Type} (p : α → Bool) (l : List α) (a : α)
    (h : l.find? p = some a) : l.any p = true := by
  induction l with
  | nil => simp at h
  | cons b t ih =>
    by_cases hb : p b
    · simp [List.any_cons, hb]
    · rw [List.find?_cons_of_neg _ hb] at h
      simp [List.any_cons, hb, ih h]

theorem getPR_after_update {db db1 : DB} {prID s : String} {pr : PullRequest}
    {cs : List RepoCall}
    (hget : getPR db prID = .ok pr)
    (hupd : updatePRStatus db prID s = (.ok db1, cs)) :
    getPR db1 prID = .ok { pr with status := s } := by
  unfold getPR at hget
  unfold updatePRStatus at hupd
  split at hget
  · exact absurd hget (by simp)
  · rename_i p hp
    split at hupd
    · injection hupd with h1 h2
      injection h1 with h1
      subst h1
      injection hget with hget
      subst hget
      unfold getPR
      rw [show ({ db with prs := db.prs.map (fun p =>
            if p.id = prID then { p with status := s } else p) } : DB).prs
          = db.prs.map (fun p => if p.id = prID then { p with status := s } else p) from rfl,
        find?_map_update_status prID s db.prs p hp]
    · exfalso
      have : db.prs.any (fun p => p.id = prID) = true :=
        any_of_find?_eq_some _ _ _ hp
      simp_all

/-- C3: `MergePR` is idempotent: on a PR already `MERGED` it returns the
fetched PR unchanged with no state change and no repository write
(`UpdatePRStatus` absent from the call log), and a second `MergePR` after a
successful one returns the same terminal PR and leaves the state (store and
call log) unchanged. -/
theorem mergePR_idempotent (req : PRMergeRequest) (st : St) :
    (∀ pr0, trimSpace req.id ≠ "" →
      getPR st.db (trimSpace req.id) = .ok pr0 → pr0.status = statusMerged →
      mergePR (some req) st = (.ok pr0, st)) ∧
    (∀ st' pr, mergePR (some req) st = (.ok pr, st') →
      mergePR (some req) st' = (.ok pr, st')) := by
  constructor
  · intro pr0 hne hget hm
    simp [mergePR, hne, hget, hm]
  · intro st' pr h
    simp only [mergePR] at h
    by_cases hne : trimSpace req.id = ""
    · rw [if_pos hne] at h
      simp at h
    · rw [if_neg hne] at h
      split at h
      · simp at h
      · simp at h
      · rename_i pr0 hget
        split at h
        · rename_i hm
          obtain ⟨h1, h2⟩ := Prod.mk.injEq .. ▸ h
          injection h1 with h1
          subst h1
          subst h2
          simp [mergePR, hne, hget, hm]
        · rename_i hnm
          split at h
          · simp at h
          · rename_i db1 cs hupd
            obtain ⟨h1, h2⟩ := Prod.mk.injEq .. ▸ h
            injection h1 with h1
            subst h1
            subst h2
            have hget1 : getPR ({ db := db1, calls := st.calls ++ cs } : St).db
                (trimSpace req.id) = .ok { pr0 with status := statusMerged } :=
              getPR_after_update hget hupd
            simp [mergePR, hne, hget1]

/-- Concrete fixture: a store holding one already-merged PR `pr-1` with
reviewer `r1`. -/
def dbMergedW : DB :=
  ⟨["t"], [⟨"a1", "author", "t", true⟩, ⟨"r1", "reviewer", "t", true⟩],
   [⟨"pr-1", "x", "a1", statusMerged⟩], [("pr-1", "r1")]⟩

def stMergedW : St := ⟨dbMergedW, []⟩

def prMergedW : PullRequest := ⟨"pr-1", "x", "a1", statusMerged, ["r1"], false⟩

/-- Witness for C3: merging the already-merged `pr-1` twice yields the same
terminal PR and the untouched state both times. -/
theorem mergePR_idempotent_witness :
    mergePR (some ⟨"pr-1"⟩) stMergedW = (.ok prMergedW, stMergedW) :=
  (mergePR_idempotent ⟨"pr-1"⟩ stMergedW).2 stMergedW prMergedW
    ((mergePR_idempotent ⟨"pr-1"⟩ stMergedW).1 prMergedW (by decide) rfl rfl)

/-- C4: `ReassignReviewer` on a `MERGED` PR fails with `PRMerged` and leaves
the state (store and mutating-call log) entirely unchanged, and on an open
PR whose reviewer set does not contain the old reviewer id it fails with
`ReviewerNotAssigned`, also without any state change. -/
theorem reassignReviewer_merged_and_unassigned (req : PRReassignRequest)
    (shuffle : List User) (st : St) (pr0 : PullRequest)
    (hne1 : trimSpace req.id ≠ "") (hne2 : trimSpace req.oldReviewerID ≠ "")
    (hget : getPR st.db (trimSpace req.id) = .ok pr0) :
    (pr0.status = statusMerged →
      reassignReviewer (some req) shuffle st = (.error .prMerged, st)) ∧
    (pr0.status ≠ statusMerged → trimSpace req.oldReviewerID ∉ pr0.reviewers →
      reassignReviewer (some req) shuffle st = (.error .reviewerNotAssigned, st)) := by
  constructor
  · intro hm
    simp [reassignReviewer, hne1, hne2, hget, hm]
  · intro hnm hmem
    simp [reassignReviewer, hne1, hne2, hget, hnm, List.elem_iff, hmem]

/-- Witness for C4: reassigning on the merged `pr-1` fails with `PRMerged`,
state untouched. -/
theorem reassignReviewer_merged_and_unassigned_witness :
    reassignReviewer (some ⟨"pr-1", "r1"⟩) [] stMergedW = (.error .prMerged, stMergedW) :=
  (reassignReviewer_merged_and_unassigned ⟨"pr-1", "r1"⟩ [] stMergedW prMergedW
    (by decide) (by decide) rfl).1 rfl

theorem getActiveTeammates_spec (shuffle : List User) (team ex : String) (lim : Nat)
    (hnd : (shuffle.map (fun u => u.id)).Nodup) :
    (getActiveTeammates shuffle team ex lim).length ≤ lim ∧
    ((getActiveTeammates shuffle team ex lim).map (fun u => u.id)).Nodup ∧
    ∀ u ∈ getActiveTeammates shuffle team ex lim, u.id ≠ ex := by
  unfold getActiveTeammates
  by_cases hl : lim = 0
  · simp [hl]
  · rw [if_neg hl]
    set fl := shuffle.filter (fun u => u.teamName = team && u.isActive && u.id ≠ ex) with hfl
    have hsub : List.Sublist (fl.take lim) shuffle :=
      (List.take_sublist lim fl).trans (List.filter_sublist shuffle)
    refine ⟨?_, ?_, ?_⟩
    · exact List.length_take_le lim fl
    · exact hnd.sublist (hsub.map (fun u => u.id))
    · intro u hu
      have hmemf : u ∈ fl := List.mem_of_mem_take hu
      have hp := List.of_mem_filter hmemf
      simp at hp
      exact hp.2

theorem createPR_ok_inv {req : PRCreateRequest} {shuffle : List User} {st st' : St}
    {pr : PullRequest} (h : createPR (some req) shuffle st = (.ok pr, st')) :
    ∃ author, getUserWithTeam st.db (trimSpace req.authorID) = .ok author ∧
      pr.id = trimSpace req.id ∧
      pr.authorID = author.id ∧
      pr.status = statusOpen ∧
      pr.reviewers = (getActiveTeammates shuffle (trimSpace author.teamName) author.id
        reviewersPerPR).map (fun u => u.id) ∧
      pr.needMoreReviewers = decide (pr.reviewers.length < reviewersPerPR) := by
  simp only [createPR] at h
  split at h
  · simp at h
  · split at h
    · simp at h
    · split at h
      · simp at h
      · split at h
        · simp at h
        · simp at h
        · rename_i author hga
          split at h
          · simp at h
          · split at h
            · simp at h
            · simp at h
            · rename_i created db1 cs1 hcr
              split at h
              · simp at h
              · rename_i db2 cs2 hadd
                obtain ⟨h1, h2⟩ := Prod.mk.injEq .. ▸ h
                injection h1 with h1
                subst h1
                have hcreated : created =
                    ({ id := trimSpace req.id, title := trimSpace req.title,
                       authorID := author.id, status := statusOpen } : StoredPR) := by
                  unfold storageCreatePR at hcr
                  split at hcr
                  · simp at hcr
                  · obtain ⟨hc1, _⟩ := Prod.mk.injEq .. ▸ hcr
                    injection hc1 with hc1
                    obtain ⟨hc2, _⟩ := Prod.mk.injEq .. ▸ hc1
                    exact hc2.symm
                refine ⟨author, hga, ?_, ?_, ?_, ?_, ?_⟩ <;> simp [hcreated]

/-- C1: every successful `CreatePR` returns a PR whose reviewer set has at
most `reviewersPerPR = 2` members, pairwise distinct, none equal to the
author.  `shuffle` is the randomly-ordered `users` table, whose ids are
unique by primary key. -/
theorem createPR_reviewer_invariants (req : PRCreateRequest) (shuffle : List User)
    (st st' : St) (pr : PullRequest)
    (hperm : shuffle.Perm st.db.users)
    (hnodup : (st.db.users.map (fun u => u.id)).Nodup)
    (h : createPR (some req) shuffle st = (.ok pr, st')) :
    pr.reviewers.length ≤ reviewersPerPR ∧ pr.reviewers.Nodup ∧
    pr.authorID ∉ pr.reviewers := by
  have hnd : (shuffle.map (fun u => u.id)).Nodup :=
    ((hperm.map (fun u => u.id)).nodup_iff).mpr hnodup
  obtain ⟨author, hga, hid, hauth, hstat, hrev, hflag⟩ := createPR_ok_inv h
  have hspec := getActiveTeammates_spec shuffle (trimSpace author.teamName) author.id
    reviewersPerPR hnd
  rw [hrev, hauth]
  refine ⟨by simpa using hspec.1, hspec.2.1, ?_⟩
  intro hmem
  obtain ⟨u, hu, hid2⟩ := List.mem_map.mp hmem
  exact hspec.2.2 u hu hid2

/-- Concrete team fixture for the `CreatePR` witnesses. -/
def dbTeamW : DB :=
  ⟨["t"],
   [⟨"a1", "author", "t", true⟩, ⟨"r1", "one", "t", true⟩,
    ⟨"r2", "two", "t", true⟩, ⟨"r3", "three", "t", true⟩], [], []⟩

def stTeamW : St := ⟨dbTeamW, []⟩

/-- A random ordering of `dbTeamW`'s users table. -/
def shuffleW : List User :=
  [⟨"r3", "three", "t", true⟩, ⟨"r1", "one", "t", true⟩,
   ⟨"r2", "two", "t", true⟩, ⟨"a1", "author", "t", true⟩]

def prCreatedW : PullRequest := ⟨"pr-1", "my pr", "a1", statusOpen, ["r3", "r1"], false⟩

def stTeamW2 : St :=
  ⟨⟨["t"], dbTeamW.users, [⟨"pr-1", "my pr", "a1", statusOpen⟩],
    [("pr-1", "r3"), ("pr-1", "r1")]⟩,
   [.insertPR "pr-1", .addReviewer "pr-1" "r3", .addReviewer "pr-1" "r1"]⟩

/-- Witness for C1 at a concrete successful `CreatePR`. -/
theorem createPR_reviewer_invariants_witness :
    prCreatedW.reviewers.length ≤ reviewersPerPR ∧ prCreatedW.reviewers.Nodup ∧
    prCreatedW.authorID ∉ prCreatedW.reviewers :=
  createPR_reviewer_invariants ⟨" pr-1 ", " my pr ", " a1 "⟩ shuffleW stTeamW stTeamW2
    prCreatedW (by decide) (by decide) rfl

/-- C8: a successful `CreatePR` returns a PR whose reviewers are exactly the
ids selected from the author's active teammates at creation time, and whose
`need_more_reviewers` flag is true exactly when fewer than 2 were selected;
the flag is computed once from that point-in-time selection. -/
theorem createPR_need_more_reviewers (req : PRCreateRequest) (shuffle : List User)
    (st st' : St) (pr : PullRequest)
    (h : createPR (some req) shuffle st = (.ok pr, st')) :
    ∃ author, getUserWithTeam st.db (trimSpace req.authorID) = .ok author ∧
      pr.reviewers = (getActiveTeammates shuffle (trimSpace author.teamName) author.id
        reviewersPerPR).map (fun u => u.id) ∧
      (pr.needMoreReviewers = true ↔ pr.reviewers.length < reviewersPerPR) := by
  obtain ⟨author, hga, hid, hauth, hstat, hrev, hflag⟩ := createPR_ok_inv h
  exact ⟨author, hga, hrev, by rw [hflag]; exact decide_eq_true_iff⟩

/-- Witness for C8 at a concrete successful `CreatePR` (2 teammates
selected, flag false). -/
theorem createPR_need_more_reviewers_witness :
    ∃ author, getUserWithTeam stTeamW.db (trimSpace " a1 ") = .ok author ∧
      prCreatedW.reviewers = (getActiveTeammates shuffleW (trimSpace author.teamName)
        author.id reviewersPerPR).map (fun u => u.id) ∧
      (prCreatedW.needMoreReviewers = true ↔ prCreatedW.reviewers.length < reviewersPerPR) :=
  createPR_need_more_reviewers ⟨" pr-1 ", " my pr ", " a1 "⟩ shuffleW stTeamW stTeamW2
    prCreatedW rfl

theorem replaceFirst_length (l : List String) (old new : String) :
    (replaceFirst l old new).length = l.length := by
  induction l with
  | nil => rfl
  | cons a t ih =>
    by_cases ha : a = old
    · simp [replaceFirst, ha]
    · simp [replaceFirst, ha, ih]

theorem mem_replaceFirst {l : List String} {old new r : String}
    (h : r ∈ replaceFirst l old new) : r = new ∨ r ∈ l := by
  induction l with
  | nil => simp [replaceFirst] at h
  | cons a t ih =>
    by_cases ha : a = old
    · rw [replaceFirst, if_pos ha] at h
      rcases List.mem_cons.mp h with rfl | hr
      · exact Or.inl rfl
      · exact Or.inr (List.mem_cons_of_mem _ hr)
    · rw [replaceFirst, if_neg ha] at h
      rcases List.mem_cons.mp h with rfl | hr
      · exact Or.inr (List.mem_cons_self _ _)
      · rcases ih hr with hn | hm
        · exact Or.inl hn
        · exact Or.inr (List.mem_cons_of_mem _ hm)

theorem mem_of_head?_eq {α : Type} {l : List α} {a : α} (h : l.head? = some a) :
    a ∈ l := by
  cases l with
  | nil => simp at h
  | cons b t =>
    injection h with h
    subst h
    exact List.mem_cons_self _ _

theorem getRandomActiveTeammate_not_excluded {shuffle : List User} {team : String}
    {excl : List String} {u : User}
    (h : getRandomActiveTeammate shuffle team excl = .ok u) :
    ∀ x ∈ excl, trimSpace x = x → x ≠ "" → u.id ≠ x := by
  intro x hx htx hnx
  simp only [getRandomActiveTeammate] at h
  cases hh : (shuffle.filter (fun v => v.teamName = team && v.isActive &&
      !((dedupFirst ((excl.map trimSpace).filter (fun id => id ≠ ""))).contains v.id))).head? with
  | none => rw [hh] at h; exact absurd h (by simp)
  | some v =>
    rw [hh] at h
    injection h with h
    subst h
    have hvmem := mem_of_head?_eq hh
    have hp := List.of_mem_filter hvmem
    simp only [Bool.and_eq_true, Bool.not_eq_true'] at hp
    intro hux
    have hxin : x ∈ dedupFirst ((excl.map trimSpace).filter (fun id => id ≠ "")) := by
      apply mem_dedupFirst.mpr
      apply List.mem_filter.mpr
      refine ⟨?_, by simpa using hnx⟩
      rw [← htx]
      exact List.mem_map_of_mem trimSpace hx
    have hfalse := hp.2
    rw [hux] at hfalse
    have hcontains : (dedupFirst ((excl.map trimSpace).filter
        (fun id => id ≠ ""))).contains x = true := List.elem_iff.mpr hxin
    rw [hfalse] at hcontains
    exact Bool.noConfusion hcontains

theorem getPR_reviewers_rows {db : DB} {prID : String} {pr : PullRequest}
    (h : getPR db prID = .ok pr) :
    ∀ r ∈ pr.reviewers, (prID, r) ∈ db.reviewerRows := by
  intro r hr
  unfold getPR at h
  split at h
  · exact absurd h (by simp)
  · injection h with h
    subst h
    simp only [] at hr
    have hperm : (sortStrings ((db.reviewerRows.filter (fun q => q.1 = prID)).map (·.2))).Perm
        ((db.reviewerRows.filter (fun q => q.1 = prID)).map (·.2)) :=
      List.perm_insertionSort _ _
    have hr2 : r ∈ (db.reviewerRows.filter (fun q => q.1 = prID)).map (·.2) :=
      hperm.mem_iff.mp hr
    obtain ⟨row, hrow, hsnd⟩ := List.mem_map.mp hr2
    have hfst := List.of_mem_filter hrow
    simp at hfst
    have : row = (prID, r) := by
      cases row
      simp at hfst hsnd
      simp [hfst, hsnd]
    rw [← this]
    exact List.mem_of_mem_filter hrow


theorem reassignReviewer_ok_inv {req : PRReassignRequest} {shuffle : List User}
    {st st' : St} {resp : PRReassignResponse}
    (h : reassignReviewer (some req) shuffle st = (.ok resp, st')) :
    ∃ pr reviewerUser replacement,
      getPR st.db (trimSpace req.id) = .ok pr ∧
      trimSpace req.oldReviewerID ∈ pr.reviewers ∧
      getUserWithTeam st.db (trimSpace req.oldReviewerID) = .ok reviewerUser ∧
      getRandomActiveTeammate shuffle (trimSpace reviewerUser.teamName)
        (dedupFirst (trimSpace req.oldReviewerID :: pr.reviewers)) = .ok replacement ∧
      resp = { pr := { pr with reviewers := replaceFirst pr.reviewers (trimSpace req.oldReviewerID) replacement.id },
               replacedBy := replacement.id } := by
  simp only [reassignReviewer] at h
  split at h
  · simp at h
  · split at h
    · simp at h
    · split at h
      · simp at h
      · simp at h
      · rename_i pr hget
        split at h
        · simp at h
        · split at h
          · simp at h
          · rename_i hnm hassigned
            split at h
            · simp at h
            · simp at h
            · rename_i reviewerUser hgu
              split at h
              · simp at h
              · split at h
                · simp at h
                · simp at h
                · rename_i replacement hrand
                  split at h
                  · simp at h
                  · simp at h
                  · rename_i db1 cs hrr
                    obtain ⟨h1, h2⟩ := Prod.mk.injEq .. ▸ h
                    injection h1 with h1
                    subst h1
                    refine ⟨pr, reviewerUser, replacement, hget, ?_, hgu, hrand, rfl⟩
                    have : pr.reviewers.contains (trimSpace req.oldReviewerID) = true := by
                      by_contra hc
                      exact hassigned (by simpa using hc)
                    exact List.elem_iff.mp this

/-- C2: a successful `ReassignReviewer` returns a replacement id that
differs from the old reviewer and from every reviewer previously on the PR
(hence from every reviewer still on it), and the returned PR carries the
fetched reviewer list with the old id replaced in place by the replacement,
preserving order and cardinality.  The well-formedness hypothesis `hwf`
states the primary-key fact that stored reviewer ids are trimmed and
non-blank. -/
theorem reassignReviewer_replacement_fresh (req : PRReassignRequest)
    (shuffle : List User) (st st' : St) (resp : PRReassignResponse)
    (hwf : ∀ p u, (p, u) ∈ st.db.reviewerRows → trimSpace u = u ∧ u ≠ "")
    (h : reassignReviewer (some req) shuffle st = (.ok resp, st')) :
    ∃ pr, getPR st.db (trimSpace req.id) = .ok pr ∧
      resp.replacedBy ≠ trimSpace req.oldReviewerID ∧
      (∀ r ∈ pr.reviewers, resp.replacedBy ≠ r) ∧
      resp.pr.reviewers =
        replaceFirst pr.reviewers (trimSpace req.oldReviewerID) resp.replacedBy ∧
      resp.pr.reviewers.length = pr.reviewers.length ∧
      ∀ r ∈ resp.pr.reviewers, r = resp.replacedBy ∨ r ∈ pr.reviewers := by
  obtain ⟨pr, reviewerUser, replacement, hget, hmem, hgu, hrand, hresp⟩ :=
    reassignReviewer_ok_inv h
  have hfresh := getRandomActiveTeammate_not_excluded hrand
  have hold_ne : replacement.id ≠ trimSpace req.oldReviewerID := by
    apply hfresh
    · exact mem_dedupFirst.mpr (List.mem_cons_self _ _)
    · exact trimSpace_idem _
    · intro hc
      have : trimSpace req.oldReviewerID ∈ pr.reviewers := hmem
      obtain ⟨_, hne⟩ := hwf _ _ (getPR_reviewers_rows hget _ this)
      exact hne hc
  have hrev_ne : ∀ r ∈ pr.reviewers, replacement.id ≠ r := by
    intro r hr
    obtain ⟨htr, hnr⟩ := hwf _ _ (getPR_reviewers_rows hget _ hr)
    exact hfresh r (mem_dedupFirst.mpr (List.mem_cons_of_mem _ hr)) htr hnr
  subst hresp
  refine ⟨pr, hget, hold_ne, hrev_ne, rfl, replaceFirst_length _ _ _, ?_⟩
  intro r hr
  exact (mem_replaceFirst hr).imp id id



def respReassignW : PRReassignResponse :=
  ⟨⟨"pr-1", "my pr", "a1", statusOpen, ["r2", "r3"], false⟩, "r2"⟩

def stTeamW3 : St :=
  ⟨⟨["t"], dbTeamW.users, [⟨"pr-1", "my pr", "a1", statusOpen⟩],
    [("pr-1", "r3"), ("pr-1", "r2")]⟩,
   stTeamW2.calls ++ [.deleteReviewer "pr-1" "r1", .insertReviewer "pr-1" "r2"]⟩

/-- Witness for C2 at a concrete successful `ReassignReviewer` (old reviewer
`r1` replaced by the only non-excluded teammate `r2`). -/
theorem reassignReviewer_replacement_fresh_witness :
    ∃ pr, getPR stTeamW2.db (trimSpace "pr-1") = .ok pr ∧
      respReassignW.replacedBy ≠ trimSpace "r1" ∧
      (∀ r ∈ pr.reviewers, respReassignW.replacedBy ≠ r) ∧
      respReassignW.pr.reviewers = replaceFirst pr.reviewers (trimSpace "r1") respReassignW.replacedBy ∧
      respReassignW.pr.reviewers.length = pr.reviewers.length ∧
      ∀ r ∈ respReassignW.pr.reviewers, r = respReassignW.replacedBy ∨ r ∈ pr.reviewers :=
  reassignReviewer_replacement_fresh ⟨"pr-1", "r1"⟩ shuffleW stTeamW2 stTeamW3
    respReassignW
    (by
      intro p u hpu
      have hcases : (p, u) = ("pr-1", "r3") ∨ (p, u) = ("pr-1", "r1") := by
        simpa [stTeamW2, dbTeamW] using hpu
      rcases hcases with hc | hc <;>
      · obtain ⟨rfl, rfl⟩ := Prod.mk.injEq .. ▸ hc
        exact ⟨by decide, by decide⟩)
    rfl

theorem normalizeMembers_error_of_bad (ms : List (Option Member)) (seen : List String)
    (hbad : ∃ mm, some mm ∈ ms ∧ (trimSpace mm.id = "" ∨ trimSpace mm.username = "")) :
    normalizeMembers ms seen = .error .validation := by
  induction ms generalizing seen with
  | nil => obtain ⟨mm, hmem, _⟩ := hbad; simp at hmem
  | cons om rest ih =>
    obtain ⟨mm, hmem, hblank⟩ := hbad
    cases om with
    | none =>
      have hrest : some mm ∈ rest := by
        rcases List.mem_cons.mp hmem with hc | hc
        · exact absurd hc (by simp)
        · exact hc
      rw [normalizeMembers]
      exact ih seen ⟨mm, hrest, hblank⟩
    | some m =>
      simp only [normalizeMembers]
      by_cases hb : trimSpace m.id = "" ∨ trimSpace m.username = ""
      · rw [if_pos hb]
      · rw [if_neg hb]
        have hrest : some mm ∈ rest := by
          rcases List.mem_cons.mp hmem with hc | hc
          · injection hc with hc
            subst hc
            exact absurd hblank hb
          · exact hc
        by_cases hseen : trimSpace m.id ∈ seen
        · rw [if_pos hseen]
          exact ih seen ⟨mm, hrest, hblank⟩
        · rw [if_neg hseen, ih (trimSpace m.id :: seen) ⟨mm, hrest, hblank⟩]

theorem normalizeMembers_ok_ids (ms : List (Option Member)) (seen : List String)
    (uniq : List Member) (h : normalizeMembers ms seen = .ok uniq) :
    uniq.map (fun m => m.id) =
      dedupFirstAux seen (ms.filterMap (fun om => om.map (fun mm => trimSpace mm.id))) := by
  induction ms generalizing seen uniq with
  | nil =>
    rw [normalizeMembers] at h
    injection h with h
    subst h
    simp [dedupFirstAux]
  | cons om rest ih =>
    cases om with
    | none =>
      rw [normalizeMembers] at h
      simpa using ih seen uniq h
    | some m =>
      simp only [normalizeMembers] at h
      by_cases hb : trimSpace m.id = "" ∨ trimSpace m.username = ""
      · rw [if_pos hb] at h; exact absurd h (by simp)
      · rw [if_neg hb] at h
        have hstep : List.filterMap (fun om => om.map (fun mm => trimSpace mm.id)) (some m :: rest)
            = trimSpace m.id :: List.filterMap (fun om => om.map (fun mm => trimSpace mm.id)) rest := by
          simp
        by_cases hseen : trimSpace m.id ∈ seen
        · rw [if_pos hseen] at h
          rw [hstep, dedupFirstAux, if_pos hseen]
          exact ih seen uniq h
        · rw [if_neg hseen] at h
          cases htail : normalizeMembers rest (trimSpace m.id :: seen) with
          | error e => rw [htail] at h; exact absurd h (by simp)
          | ok tail =>
            rw [htail] at h
            injection h with h
            subst h
            rw [hstep, dedupFirstAux, if_neg hseen, List.map_cons,
              ih (trimSpace m.id :: seen) tail htail]

theorem upsertAll_cons (db : DB) (m : Member) (rest : List Member) (team : String) :
    upsertAll db (m :: rest) team
      = ((upsertAll ((upsertUser db m team).1) rest team).1,
         (upsertUser db m team).2 ++ (upsertAll ((upsertUser db m team).1) rest team).2) := rfl

theorem upsertAll_calls (db : DB) (ms : List Member) (team : String) :
    (upsertAll db ms team).2 = ms.map (fun m => RepoCall.upsertUser m team) := by
  induction ms generalizing db with
  | nil => rfl
  | cons m rest ih =>
    rw [upsertAll_cons]
    show (upsertUser db m team).2 ++ (upsertAll ((upsertUser db m team).1) rest team).2 = _
    rw [ih ((upsertUser db m team).1)]
    rfl

/-- C7: `CreateTeam` trims the team name and member fields, fails validation
on a blank name or a blank id/username of any non-null member, silently
skips null members, deduplicates members by id keeping the first occurrence,
and on success returns the normalized team and issues exactly one team-row
insert followed by exactly one upsert per unique member. -/
theorem createTeam_normalization (t : TeamIn) (st : St) :
    (trimSpace t.name = "" → createTeam (some t) st = (.error .validation, st)) ∧
    ((∃ mm, some mm ∈ t.members ∧ (trimSpace mm.id = "" ∨ trimSpace mm.username = "")) →
      createTeam (some t) st = (.error .validation, st)) ∧
    (∀ res st2, createTeam (some t) st = (.ok res, st2) →
      res.name = trimSpace t.name ∧
      res.members.map (fun m => m.id) =
        dedupFirst (t.members.filterMap (fun om => om.map (fun mm => trimSpace mm.id))) ∧
      st2.calls = st.calls ++ RepoCall.createTeamRow res.name ::
        res.members.map (fun m => RepoCall.upsertUser m res.name)) := by
  refine ⟨?_, ?_, ?_⟩
  · intro hname
    simp [createTeam, hname]
  · intro hbad
    by_cases hname : trimSpace t.name = ""
    · simp [createTeam, hname]
    · simp [createTeam, hname, normalizeMembers_error_of_bad t.members [] hbad]
  · intro res st2 h
    simp only [createTeam] at h
    split at h
    · simp at h
    · split at h
      · simp at h
      · rename_i uniq hnorm
        split at h
        · simp at h
        · simp at h
        · rename_i db1 cs1 hct
          have hcs1 : cs1 = [RepoCall.createTeamRow (trimSpace t.name)] := by
            unfold storageCreateTeam at hct
            split at hct
            · exact absurd hct (by simp)
            · obtain ⟨_, hc2⟩ := Prod.mk.injEq .. ▸ hct
              exact hc2.symm
          obtain ⟨h1, h2⟩ := Prod.mk.injEq .. ▸ h
          injection h1 with h1
          subst h1
          refine ⟨rfl, normalizeMembers_ok_ids t.members [] _ hnorm, ?_⟩
          rw [← h2]
          simp only [hcs1, upsertAll_calls]
          simp

/-- Spec example input: members `[{u1,Alice}, {u1,Alice}, nil, {u2,Bob}]`. -/
def teamInW : TeamIn :=
  ⟨" t2 ", [some ⟨"u1", "Alice", true⟩, some ⟨"u1 ", " Alice", true⟩, none,
            some ⟨"u2", "Bob", true⟩]⟩

def teamOutW : TeamOut := ⟨"t2", [⟨"u1", "Alice", true⟩, ⟨"u2", "Bob", true⟩]⟩

def stTeamCreatedW : St :=
  ⟨⟨["t", "t2"],
    dbTeamW.users ++ [⟨"u1", "Alice", "t2", true⟩, ⟨"u2", "Bob", "t2", true⟩], [], []⟩,
   [.createTeamRow "t2", .upsertUser ⟨"u1", "Alice", true⟩ "t2",
    .upsertUser ⟨"u2", "Bob", true⟩ "t2"]⟩

/-- Witness for C7 on the spec example: exactly 2 members survive
normalization and exactly 2 upserts are issued. -/
theorem createTeam_normalization_witness :
    teamOutW.name = trimSpace teamInW.name ∧
    teamOutW.members.map (fun m => m.id) =
      dedupFirst (teamInW.members.filterMap (fun om => om.map (fun mm => trimSpace mm.id))) ∧
    stTeamCreatedW.calls = stTeamW.calls ++ RepoCall.createTeamRow teamOutW.name ::
      teamOutW.members.map (fun m => RepoCall.upsertUser m teamOutW.name) :=
  (createTeam_normalization teamInW stTeamW).2.2 teamOutW stTeamCreatedW rfl


theorem char_toNat_inj {a b : Char} (h : a.toNat = b.toNat) : a = b :=
  Char.ext (UInt32.ext h)

theorem strLEb_total : ∀ (as bs : List Char), strLEb as bs = true ∨ strLEb bs as = true := by
  intro as
  induction as with
  | nil => intro bs; left; rfl
  | cons a as2 ih =>
    intro bs
    cases bs with
    | nil => right; rfl
    | cons b bt =>
      by_cases hab : a = b
      · subst hab
        rcases ih bt with h | h
        · left; simp [strLEb, h]
        · right; simp [strLEb, h]
      · have hne : a.toNat ≠ b.toNat := fun hc => hab (char_toNat_inj hc)
        have hba : ¬ b = a := fun hc => hab hc.symm
        rcases Nat.lt_or_ge a.toNat b.toNat with hlt | hge
        · left; simp [strLEb, hab, hlt]
        · have hblt : b.toNat < a.toNat := by omega
          right; simp [strLEb, hba, hblt]

theorem strLEb_trans : ∀ (as bs cs : List Char), strLEb as bs = true →
    strLEb bs cs = true → strLEb as cs = true := by
  intro as
  induction as with
  | nil => intro bs cs h1 h2; rfl
  | cons a as2 ih =>
    intro bs cs h1 h2
    cases bs with
    | nil => simp [strLEb] at h1
    | cons b bt =>
      cases cs with
      | nil => simp [strLEb] at h2
      | cons c ct =>
        by_cases hab : a = b <;> by_cases hbc : b = c
        · subst hab; subst hbc
          simp [strLEb] at h1 h2 ⊢
          exact ih bt ct h1 h2
        · subst hab
          simp [strLEb, hbc] at h2
          simp [strLEb, hbc, h2]
        · subst hbc
          simp [strLEb, hab] at h1
          simp [strLEb, hab, h1]
        · simp [strLEb, hab] at h1
          simp [strLEb, hbc] at h2
          have hac : ¬ a = c := by
            intro hc
            subst hc
            omega
          have : a.toNat < c.toNat := by omega
          simp [strLEb, hac, this]

theorem strLEb_antisymm : ∀ (as bs : List Char), strLEb as bs = true →
    strLEb bs as = true → as = bs := by
  intro as
  induction as with
  | nil =>
    intro bs h1 h2
    cases bs with
    | nil => rfl
    | cons b bt => simp [strLEb] at h2
  | cons a as2 ih =>
    intro bs h1 h2
    cases bs with
    | nil => simp [strLEb] at h1
    | cons b bt =>
      by_cases hab : a = b
      · subst hab
        simp [strLEb] at h1 h2
        rw [ih bt h1 h2]
      · have hba : ¬ b = a := fun hc => hab hc.symm
        simp [strLEb, hab] at h1
        simp [strLEb, hba] at h2
        omega

theorem strLE_total (s t : String) : strLE s t ∨ strLE t s := strLEb_total s.data t.data

theorem strLE_trans {s t u : String} (h1 : strLE s t) (h2 : strLE t u) : strLE s u :=
  strLEb_trans s.data t.data u.data h1 h2

theorem strLE_antisymm {s t : String} (h1 : strLE s t) (h2 : strLE t s) : s = t :=
  String.ext (strLEb_antisymm s.data t.data h1 h2)

instance : IsTotal (String × Nat) statLE := by
  constructor
  intro a b
  by_cases h : a.2 = b.2
  · rcases strLE_total a.1 b.1 with hs | hs
    · exact Or.inl (Or.inr ⟨h, hs⟩)
    · exact Or.inr (Or.inr ⟨h.symm, hs⟩)
  · rcases Nat.lt_or_ge a.2 b.2 with hlt | hge
    · exact Or.inr (Or.inl hlt)
    · exact Or.inl (Or.inl (by omega))

instance : IsTrans (String × Nat) statLE := by
  constructor
  intro a b c h1 h2
  rcases h1 with h1 | ⟨h1e, h1s⟩ <;> rcases h2 with h2 | ⟨h2e, h2s⟩
  · exact Or.inl (by omega)
  · exact Or.inl (by omega)
  · exact Or.inl (by omega)
  · exact Or.inr ⟨by omega, strLE_trans h1s h2s⟩

instance : IsAntisymm (String × Nat) statLE := by
  constructor
  intro a b h1 h2
  rcases h1 with h1 | ⟨h1e, h1s⟩ <;> rcases h2 with h2 | ⟨h2e, h2s⟩
  · omega
  · omega
  · omega
  · have hfst : a.1 = b.1 := strLE_antisymm h1s h2s
    have hsnd : a.2 = b.2 := h1e
    exact Prod.ext hfst hsnd

theorem aggregateCounts_sorted (keys : List String) :
    (aggregateCounts keys).Sorted statLE :=
  List.sorted_insertionSort statLE _

theorem aggregateCounts_perm {l1 l2 : List String} (h : l1.Perm l2) :
    aggregateCounts l1 = aggregateCounts l2 := by
  unfold aggregateCounts
  refine List.eq_of_perm_of_sorted ?_ (List.sorted_insertionSort statLE _)
    (List.sorted_insertionSort statLE _)
  have e3 : l2.dedup.map (fun k => (k, l1.count k))
      = l2.dedup.map (fun k => (k, l2.count k)) := by
    apply List.map_congr_left
    intro k _
    rw [h.count_eq]
  have p2 : (l1.dedup.map (fun k => (k, l1.count k))).Perm
      (l2.dedup.map (fun k => (k, l2.count k))) := by
    rw [← e3]
    exact (h.dedup).map _
  exact (List.perm_insertionSort _ _).trans (p2.trans (List.perm_insertionSort _ _).symm)

theorem mem_aggregateCounts (keys : List String) (k : String) (c : Nat) :
    (k, c) ∈ aggregateCounts keys ↔ (k ∈ keys ∧ c = keys.count k) := by
  unfold aggregateCounts
  rw [(List.perm_insertionSort statLE _).mem_iff, List.mem_map]
  constructor
  · rintro ⟨k2, hmem, heq⟩
    obtain ⟨h1, h2⟩ := Prod.mk.injEq .. ▸ heq
    subst h1
    exact ⟨List.mem_dedup.mp hmem, h2.symm⟩
  · rintro ⟨hmem, rfl⟩
    exact ⟨k, List.mem_dedup.mpr hmem, rfl⟩

/-- C9: `GetAssignmentsStats` returns the per-user assignment counts and the
per-PR reviewer counts, each sorted by count descending with ties broken by
identifier ascending, and the output is a function of the assignment
multiset alone — any reordering of the stored assignment rows yields exactly
the same output, so the order is deterministic for a fixed state. -/
theorem getAssignmentsStats_sorted_deterministic (db : DB) :
    ((getAssignmentsStats db).1.Sorted statLE) ∧
    ((getAssignmentsStats db).2.Sorted statLE) ∧
    (∀ (k : String) (c : Nat), (k, c) ∈ (getAssignmentsStats db).1 ↔
      (k ∈ db.reviewerRows.map (fun r => r.2) ∧
       c = (db.reviewerRows.map (fun r => r.2)).count k)) ∧
    (∀ (k : String) (c : Nat), (k, c) ∈ (getAssignmentsStats db).2 ↔
      (k ∈ db.reviewerRows.map (fun r => r.1) ∧
       c = (db.reviewerRows.map (fun r => r.1)).count k)) ∧
    (∀ db2 : DB, db.reviewerRows.Perm db2.reviewerRows →
      getAssignmentsStats db = getAssignmentsStats db2) := by
  refine ⟨aggregateCounts_sorted _, aggregateCounts_sorted _,
    fun k c => mem_aggregateCounts _ k c, fun k c => mem_aggregateCounts _ k c, ?_⟩
  intro db2 hperm
  unfold getAssignmentsStats
  rw [aggregateCounts_perm (hperm.map (fun r => r.2)),
    aggregateCounts_perm (hperm.map (fun r => r.1))]

/-- Two stores with the same assignment rows in different order. -/
def dbStatsW : DB := ⟨[], [], [], [("p1", "u1"), ("p1", "u2"), ("p2", "u1")]⟩

def dbStats2W : DB := ⟨[], [], [], [("p2", "u1"), ("p1", "u2"), ("p1", "u1")]⟩

/-- Witness for C9: the two orderings of the same assignment rows produce
identical statistics. -/
theorem getAssignmentsStats_sorted_deterministic_witness :
    getAssignmentsStats dbStatsW = getAssignmentsStats dbStats2W :=
  (getAssignmentsStats_sorted_deterministic dbStatsW).2.2.2.2 dbStats2W (by decide)



/-- C10: every public service operation trims its string inputs before use:
each operation behaves identically on an input and on its trimmed form (so
an id, title or name surrounded by whitespace denotes the same entity), a
whitespace-only required input fails with a `Validation` error and leaves
the state unchanged, and created/updated entities carry the trimmed
identifier (`CreatePR` with id `" pr-1 "` creates PR `"pr-1"`,
`SetUserActive` with `" u1 "` updates user `"u1"`). -/
theorem services_trim_inputs :
    (∀ (req : PRCreateRequest) (shuffle : List User) (st : St),
      createPR (some req) shuffle st =
        createPR (some ⟨trimSpace req.id, trimSpace req.title, trimSpace req.authorID⟩) shuffle st) ∧
    (∀ (req : PRCreateRequest) (shuffle : List User) (st : St),
      (trimSpace req.id = "" ∨ trimSpace req.title = "" ∨ trimSpace req.authorID = "") →
      createPR (some req) shuffle st = (.error .validation, st)) ∧
    (∀ (req : PRCreateRequest) (shuffle : List User) (st st2 : St) (pr : PullRequest),
      createPR (some req) shuffle st = (.ok pr, st2) → pr.id = trimSpace req.id) ∧
    (∀ (uid : String) (st : St), getUserReviews uid st = getUserReviews (trimSpace uid) st) ∧
    (∀ (uid : String) (st : St), trimSpace uid = "" →
      getUserReviews uid st = (.error .validation, st)) ∧
    (∀ (req : PRMergeRequest) (st : St),
      mergePR (some req) st = mergePR (some ⟨trimSpace req.id⟩) st) ∧
    (∀ (req : PRMergeRequest) (st : St), trimSpace req.id = "" →
      mergePR (some req) st = (.error .validation, st)) ∧
    (∀ (req : PRReassignRequest) (shuffle : List User) (st : St),
      reassignReviewer (some req) shuffle st =
        reassignReviewer (some ⟨trimSpace req.id, trimSpace req.oldReviewerID⟩) shuffle st) ∧
    (∀ (req : PRReassignRequest) (shuffle : List User) (st : St),
      (trimSpace req.id = "" ∨ trimSpace req.oldReviewerID = "") →
      reassignReviewer (some req) shuffle st = (.error .validation, st)) ∧
    (∀ (uid : String) (b : Bool) (st : St),
      setUserActive uid b st = setUserActive (trimSpace uid) b st) ∧
    (∀ (uid : String) (b : Bool) (st : St), trimSpace uid = "" →
      setUserActive uid b st = (.error .validation, st)) ∧
    (∀ (uid : String) (b : Bool) (st st2 : St) (u : User),
      setUserActive uid b st = (.ok u, st2) → u.id = trimSpace uid) ∧
    (∀ (t : TeamIn) (st : St),
      createTeam (some t) st = createTeam (some ⟨trimSpace t.name, t.members⟩) st) ∧
    (∀ (name : String) (st : St), getTeamUsers name st = getTeamUsers (trimSpace name) st) ∧
    (∀ (name : String) (st : St), trimSpace name = "" →
      getTeamUsers name st = (.error .validation, st)) ∧
    (∀ (name : String) (st : St),
      deactivateTeamUsers name st = deactivateTeamUsers (trimSpace name) st) ∧
    (∀ (name : String) (st : St), trimSpace name = "" →
      deactivateTeamUsers name st = (.error .validation, st)) := by
  refine ⟨?_, ?_, ?_, ?_, ?_, ?_, ?_, ?_, ?_, ?_, ?_, ?_, ?_, ?_, ?_, ?_, ?_⟩
  · intro req shuffle st
    simp only [createPR, trimSpace_idem]
  · intro req shuffle st hblank
    simp only [createPR]
    by_cases h1 : trimSpace req.id = ""
    · rw [if_pos h1]
    · rw [if_neg h1]
      by_cases h2 : trimSpace req.title = ""
      · rw [if_pos h2]
      · rw [if_neg h2]
        have h3 : trimSpace req.authorID = "" := by tauto
        rw [if_pos h3]
  · intro req shuffle st st2 pr h
    obtain ⟨author, _, hid, _⟩ := createPR_ok_inv h
    exact hid
  · intro uid st
    simp only [getUserReviews, trimSpace_idem]
  · intro uid st hblank
    simp [getUserReviews, hblank]
  · intro req st
    simp only [mergePR, trimSpace_idem]
  · intro req st hblank
    simp [mergePR, hblank]
  · intro req shuffle st
    simp only [reassignReviewer, trimSpace_idem]
  · intro req shuffle st hblank
    simp only [reassignReviewer]
    by_cases h1 : trimSpace req.id = ""
    · rw [if_pos h1]
    · rw [if_neg h1]
      have h2 : trimSpace req.oldReviewerID = "" := by tauto
      rw [if_pos h2]
  · intro uid b st
    simp only [setUserActive, trimSpace_idem]
  · intro uid b st hblank
    simp [setUserActive, hblank]
  · intro uid b st st2 u h
    simp only [setUserActive] at h
    split at h
    · simp at h
    · split at h
      · simp at h
      · simp at h
      · rename_i ures db1 cs hss
        obtain ⟨h1, _⟩ := Prod.mk.injEq .. ▸ h
        injection h1 with h1
        subst h1
        unfold storageSetUserActive at hss
        split at hss
        · exact absurd hss (by simp)
        · rename_i u0 hfind
          obtain ⟨hs1, _⟩ := Prod.mk.injEq .. ▸ hss
          injection hs1 with hs1
          obtain ⟨hs2, _⟩ := Prod.mk.injEq .. ▸ hs1
          have hp := List.find?_some hfind
          have : u0.id = trimSpace uid := by simpa using hp
          rw [← hs2]
          exact this
  · intro t st
    simp only [createTeam, trimSpace_idem]
  · intro name st
    simp only [getTeamUsers, trimSpace_idem]
  · intro name st hblank
    simp [getTeamUsers, hblank]
  · intro name st
    simp only [deactivateTeamUsers, trimSpace_idem]
  · intro name st hblank
    simp [deactivateTeamUsers, hblank]

def uActiveW : User := ⟨"a1", "author", "t", false⟩

def stActiveW2 : St :=
  ⟨⟨["t"],
    [⟨"a1", "author", "t", false⟩, ⟨"r1", "one", "t", true⟩,
     ⟨"r2", "two", "t", true⟩, ⟨"r3", "three", "t", true⟩], [], []⟩,
   [.setActive "a1" false]⟩

/-- Witness for C10: a whitespace-only id fails validation; `CreatePR` with
id `" pr-1 "` creates PR `"pr-1"`; `SetUserActive` with `" a1 "` updates
user `"a1"`. -/
theorem services_trim_inputs_witness :
    createPR (some ⟨"  ", "x", "a1"⟩) [] stTeamW = (.error .validation, stTeamW) ∧
    prCreatedW.id = trimSpace " pr-1 " ∧
    uActiveW.id = trimSpace " a1 " :=
  ⟨services_trim_inputs.2.1 ⟨"  ", "x", "a1"⟩ [] stTeamW (Or.inl (by decide)),
   services_trim_inputs.2.2.1 ⟨" pr-1 ", " my pr ", " a1 "⟩ shuffleW stTeamW stTeamW2
     prCreatedW rfl,
   services_trim_inputs.2.2.2.2.2.2.2.2.2.2.2.1 " a1 " false stTeamW stActiveW2 uActiveW rfl⟩


end PRReviewer
